import Mathlib

/-!
Shallow embedding of the SummerRateChecker rate-monitoring engine
(github.com/morrisonbrett/SummerRateChecker, Go).

Rates and thresholds are Go `float64` percentage-scale decimals; they are
modelled as rationals (`ℚ`), so plain arithmetic identities hold exactly.
Go maps are modelled as association lists keyed by `String`, with map
assignment replacing the binding for an existing key.  Network calls
(market-data fetches, webhook POSTs) are modelled as explicit oracle
functions passed to the embedded definitions, and the wall clock as an
explicit `now : ℕ` argument.
-/

/-- Vault configuration, from `internal/types` (`VaultConfig`). -/
structure VaultConfig where
  vaultID : String
  nickname : String
  thresholdPercent : ℚ
  channelID : String
  webhookURL : String
  createdAt : ℕ
  morphoMarketKey : String
  marketPair : String
  lastAlertRate : ℚ
deriving Repr, DecidableEq

/-- Market data for a vault, from `internal/types` (`MarketData`).
The Go struct also carries a `Timestamp`, irrelevant to every claim. -/
structure MarketData where
  vaultID : String
  morphoMarketKey : String
  borrowRate : ℚ
  supplyRate : ℚ
deriving Repr, DecidableEq

/-- Alert payload, from `internal/types` (`RateChangeAlert`). -/
structure RateChangeAlert where
  vaultID : String
  nickname : String
  marketPair : String
  previousRate : ℚ
  currentRate : ℚ
  changePercent : ℚ
deriving Repr, DecidableEq

/-- Function `types.NewRateChangeAlert`: `ChangePercent` is the signed difference in
percentage points (`currRate - prevRate`). -/
def NewRateChangeAlert (vaultID nickname marketPair : String)
    (prevRate currRate : ℚ) : RateChangeAlert :=
  { vaultID := vaultID
    nickname := nickname
    marketPair := marketPair
    previousRate := prevRate
    currentRate := currRate
    changePercent := currRate - prevRate }

/-- Result of processing one vault inside `Monitor.checkRates`
(monitor.go lines 110-212): the alert decision, the vault configuration
after the step (`checkRates` never writes any `VaultConfig` field), and
the value stored by `UpdateLastRate`. -/
structure EvalResult where
  alert : Option RateChangeAlert
  vault : VaultConfig
  newLastRate : ℚ
deriving Repr, DecidableEq

/-- The per-vault evaluation of `Monitor.checkRates` (monitor.go lines
110-212).  `lastRate?` is the result of `storage.GetLastRate`: `none` when
the vault has no stored rate (first check).  On the first check no alert is
produced and the observed rate is stored.  Otherwise the code computes
`rateChange := borrowRate - lastRate` and
`rateChangePercent := |rateChange / lastRate * 100|` and alerts when
`rateChangePercent ≥ thresholdPercent`, building the alert via
`types.NewRateChangeAlert` with `lastRate` as the previous rate. -/
def checkRatesStep (vc : VaultConfig) (lastRate? : Option ℚ) (borrowRate : ℚ) :
    EvalResult :=
  match lastRate? with
  | none => { alert := none, vault := vc, newLastRate := borrowRate }
  | some lastRate =>
      let rateChange := borrowRate - lastRate
      let rateChangePercent := |rateChange / lastRate * 100|
      { alert :=
          if vc.thresholdPercent ≤ rateChangePercent then
            some (NewRateChangeAlert vc.vaultID vc.nickname vc.marketPair
              lastRate borrowRate)
          else none
        vault := vc
        newLastRate := borrowRate }

/-- A concrete vault used to exhibit behaviour of `checkRatesStep`:
threshold 0.6 percentage points, no stored alert rate. -/
def vcPoints : VaultConfig :=
  { vaultID := "v1"
    nickname := "WBTC Vault"
    thresholdPercent := 3/5
    channelID := "chan1"
    webhookURL := ""
    createdAt := 0
    morphoMarketKey := ""
    marketPair := "WBTC-USDC"
    lastAlertRate := 0 }

/-- A concrete vault with a non-zero stored `lastAlertRate` (reachable by
loading `vaults.json`, whose schema includes `last_alert_rate`). -/
def vcAnchored : VaultConfig :=
  { vaultID := "v2"
    nickname := "ETH Vault"
    thresholdPercent := 10
    channelID := "chan2"
    webhookURL := ""
    createdAt := 0
    morphoMarketKey := ""
    marketPair := "WSTETH-ETH"
    lastAlertRate := 6 }

/-- C1.  The claim states that a tracked vault alerts iff
`|observed - baseline| ≥ threshold_percent` as a plain decimal subtraction.
The code instead compares the relative change `|Δ / lastRate * 100|`
against the threshold, contradicting the repository's own README and
in-bot help text ("Threshold is in percentage points (0.5 = alert on
±0.5% change)").  At threshold 0.6, stored rate 50.00 and observed rate
50.50 the points difference is 0.5 < 0.6, so per the claim no alert may
fire, yet the code fires one (relative change 1.0 ≥ 0.6). -/
theorem checkRates_alert_uses_relative_change :
    (checkRatesStep vcPoints (some 50) (101/2)).alert.isSome = true ∧
      |(101/2 : ℚ) - 50| < vcPoints.thresholdPercent := by
  constructor
  · simp only [checkRatesStep, vcPoints, NewRateChangeAlert]
    norm_num
  · simp only [vcPoints]
    rw [show (101/2 : ℚ) - 50 = 1/2 by norm_num, abs_of_pos (by norm_num)]
    norm_num

/-- C2, counterexample.  The claim states the comparison baseline is
`last_alert_rate` whenever that field is set and non-zero.  For the vault
`vcAnchored` (`lastAlertRate = 6 ≠ 0`) with stored last rate 5 and
observed rate 6, the code nonetheless fires an alert whose
`previousRate` — the baseline it compared against — is the last observed
rate 5, not 6; under the claimed baseline the change would be 0 and no
alert could fire at all. -/
theorem baseline_ignores_lastAlertRate :
    ((checkRatesStep vcAnchored (some 5) 6).alert.map (·.previousRate))
        = some 5 ∧
      vcAnchored.lastAlertRate = 6 ∧ (5 : ℚ) ≠ 6 := by
  refine ⟨?_, rfl, by norm_num⟩
  simp only [checkRatesStep, vcAnchored, NewRateChangeAlert]
  norm_num

/-- C2, amended.  The comparison baseline of a tracked evaluation is
always the last observed rate: any alert produced has the stored
`lastRate` as its `previousRate`; the stored rate is always overwritten
with the observation (so immediately after an alert at rate `r` the next
baseline is `r`, merely because `r` was the last observation); and the
vault configuration — `lastAlertRate` included — is never written. -/
theorem baseline_is_last_observed (vc : VaultConfig) (lastRate b : ℚ) :
    (∀ a, (checkRatesStep vc (some lastRate) b).alert = some a →
        a.previousRate = lastRate) ∧
      (checkRatesStep vc (some lastRate) b).newLastRate = b ∧
      (checkRatesStep vc (some lastRate) b).vault = vc := by
  refine ⟨?_, rfl, rfl⟩
  intro a ha
  simp only [checkRatesStep] at ha
  split at ha
  · cases ha
    rfl
  · cases ha

/-- Witness for `baseline_is_last_observed` at threshold 0.6, stored rate
5.2, observed rate 5.8. -/
theorem baseline_is_last_observed_witness :
    (checkRatesStep vcPoints (some (26/5)) (29/5)).newLastRate = 29/5 :=
  (baseline_is_last_observed vcPoints (26/5) (29/5)).2.1

/-- C3, counterexample.  The claim states the first observation seeds
`last_alert_rate = last_rate = observed_rate`.  On the first check for
`vcPoints` with observed rate 5.2 the code stores `last_rate = 5.2` but
leaves `lastAlertRate` at its prior value 0 ≠ 5.2: no code path ever
writes that field. -/
theorem first_check_does_not_seed_lastAlertRate :
    (checkRatesStep vcPoints none (26/5)).vault.lastAlertRate = 0 ∧
      (checkRatesStep vcPoints none (26/5)).newLastRate = 26/5 ∧
      (0 : ℚ) ≠ 26/5 := by
  refine ⟨rfl, rfl, by norm_num⟩

/-- C3, amended.  The first observation for an untracked vault never
produces an alert and stores the observed value as `last_rate`; the vault
configuration, `lastAlertRate` included, is left unchanged. -/
theorem first_check_never_alerts (vc : VaultConfig) (b : ℚ) :
    checkRatesStep vc none b = { alert := none, vault := vc, newLastRate := b } :=
  rfl

/-- Go's `strings.Contains s sub`: `sub` occurs as a contiguous substring
of `s`. -/
def goContains (s sub : String) : Bool :=
  s.toList.tails.any (fun t => sub.toList.isPrefixOf t)

/-- One asset of a market listing entry, from the GraphQL `MarketsResponse`
in `internal/morpho/client.go`. -/
structure Asset where
  symbol : String
  address : String
deriving Repr, DecidableEq

/-- One entry of the bulk market listing (`MarketsResponse.Markets.Items`). -/
structure MarketItem where
  id : String
  uniqueKey : String
  loanAsset : Asset
  collateralAsset : Asset
  borrowApy : ℚ
  supplyApy : ℚ
deriving Repr, DecidableEq

/-- The market-pair pass of `findUniqueKeyByVaultID` (client.go lines
314-332): first listing entry whose collateral and loan symbols equal the
split hint, in listing order. -/
def findByMarketPair (collateralSymbol loanSymbol : String) :
    List MarketItem → Option String
  | [] => none
  | m :: rest =>
      if m.collateralAsset.symbol == collateralSymbol
          && m.loanAsset.symbol == loanSymbol then
        some m.uniqueKey
      else findByMarketPair collateralSymbol loanSymbol rest

/-- The fallback pass of `findUniqueKeyByVaultID` (client.go lines
334-376): one loop over the listing, testing each entry against the five
strategies in order and returning the first entry that matches any of
them. -/
def findInFallback (vaultID : String) : List MarketItem → Except String String
  | [] => .error ("vault ID " ++ vaultID ++ " not found in any markets")
  | m :: rest =>
      if m.id == vaultID then .ok m.uniqueKey
      else if goContains m.uniqueKey vaultID then .ok m.uniqueKey
      else if m.uniqueKey.endsWith vaultID then .ok m.uniqueKey
      else if goContains m.loanAsset.address vaultID
          || goContains m.collateralAsset.address vaultID then .ok m.uniqueKey
      else if goContains m.id vaultID then .ok m.uniqueKey
      else findInFallback vaultID rest

/-- Function `Client.findUniqueKeyByVaultID` (client.go lines 265-392), applied to
a fixed listing: the exact market-pair pass runs first when the hint is
non-empty and splits into exactly two symbols; otherwise the fallback
strategies run. -/
def findUniqueKeyByVaultID (items : List MarketItem)
    (vaultID marketPair : String) : Except String String :=
  let viaPair : Option String :=
    if marketPair != "" then
      match marketPair.splitOn "-" with
      | [c, l] => findByMarketPair c l items
      | _ => none
    else none
  match viaPair with
  | some k => .ok k
  | none => findInFallback vaultID items

/-- An entry matches the fallback search iff one of the five strategies of
client.go lines 335-376 accepts it. -/
def matchesAnyStrategy (vaultID : String) (m : MarketItem) : Bool :=
  m.id == vaultID
    || goContains m.uniqueKey vaultID
    || m.uniqueKey.endsWith vaultID
    || goContains m.loanAsset.address vaultID
    || goContains m.collateralAsset.address vaultID
    || goContains m.id vaultID

/-- Follows the spec's words, for comparison with `findInFallback`: each
strategy is applied over the whole listing in priority order (a)-(e), and
the first strategy with any match determines the result. -/
def findUniqueKeyStrategyFirst (items : List MarketItem) (vaultID : String) :
    Option String :=
  ((items.find? (fun m => m.id == vaultID)).map (·.uniqueKey)).orElse fun _ =>
  ((items.find? (fun m => goContains m.uniqueKey vaultID)).map (·.uniqueKey)).orElse fun _ =>
  ((items.find? (fun m => m.uniqueKey.endsWith vaultID)).map (·.uniqueKey)).orElse fun _ =>
  ((items.find? (fun m => goContains m.loanAsset.address vaultID
      || goContains m.collateralAsset.address vaultID)).map (·.uniqueKey)).orElse fun _ =>
  (items.find? (fun m => goContains m.id vaultID)).map (·.uniqueKey)

/-- Listing entry whose internal id merely contains `"123"`. -/
def mLowPriority : MarketItem :=
  { id := "x123x"
    uniqueKey := "k1"
    loanAsset := { symbol := "USDC", address := "0xaaa" }
    collateralAsset := { symbol := "WBTC", address := "0xbbb" }
    borrowApy := 0
    supplyApy := 0 }

/-- Listing entry whose internal id equals `"123"` exactly. -/
def mHighPriority : MarketItem :=
  { id := "123"
    uniqueKey := "k2"
    loanAsset := { symbol := "DAI", address := "0xccc" }
    collateralAsset := { symbol := "WETH", address := "0xddd" }
    borrowApy := 0
    supplyApy := 0 }

/-- C4, counterexample.  The claim states strategy priority ranges over
the whole listing, so an entry matching the exact-id strategy (a) beats
an earlier entry matching only the id-contains strategy (e).  On the
listing `[mLowPriority, mHighPriority]` with vault id `"123"` the code
returns `"k1"` — the earlier entry, which matches only strategy (e) —
while the strategy-priority reading required `"k2"`. -/
theorem fallback_not_strategy_priority :
    findUniqueKeyByVaultID [mLowPriority, mHighPriority] "123" "" = .ok "k1" ∧
      findUniqueKeyStrategyFirst [mLowPriority, mHighPriority] "123"
        = some "k2" ∧
      ("k1" : String) ≠ "k2" := by
  refine ⟨rfl, rfl, by decide⟩

/-- The fallback loop body, folded through `matchesAnyStrategy`. -/
theorem findInFallback_cons (vaultID : String) (m : MarketItem)
    (rest : List MarketItem) :
    findInFallback vaultID (m :: rest)
      = if matchesAnyStrategy vaultID m then .ok m.uniqueKey
        else findInFallback vaultID rest := by
  simp only [findInFallback, matchesAnyStrategy, Bool.or_eq_true]
  by_cases h1 : m.id == vaultID <;>
    by_cases h2 : goContains m.uniqueKey vaultID <;>
    by_cases h3 : m.uniqueKey.endsWith vaultID <;>
    by_cases h4 : goContains m.loanAsset.address vaultID <;>
    by_cases h5 : goContains m.collateralAsset.address vaultID <;>
    by_cases h6 : goContains m.id vaultID <;>
    simp [h1, h2, h3, h4, h5, h6]

/-- C4, amended: the fallback search scans the listing once in order and
returns the key of the first entry matching any of the five strategies;
strategy order matters only within a single entry. -/
theorem fallback_first_matching_entry (vaultID : String)
    (items : List MarketItem) :
    findInFallback vaultID items
      = match items.find? (fun m => matchesAnyStrategy vaultID m) with
        | some m => .ok m.uniqueKey
        | none => .error ("vault ID " ++ vaultID ++ " not found in any markets") := by
  induction items with
  | nil => rfl
  | cons m rest ih =>
      rw [findInFallback_cons]
      by_cases hm : matchesAnyStrategy vaultID m
      · simp [hm]
      · simp [hm, ih]

/-- Function `Client.fetchMarketByUniqueKey` (client.go lines 90-139) against a
fixed listing: the server's `marketByUniqueKey` query is modelled as the
first listing entry carrying that unique key; an empty `uniqueKey` in the
response is the not-found error, otherwise the rates are scaled from
decimals to percentages and the passed-in key and original vault id are
kept. -/
def fetchMarketByUniqueKey (items : List MarketItem)
    (uniqueKey originalVaultID : String) : Except String MarketData :=
  match items.find? (fun m => m.uniqueKey == uniqueKey) with
  | none => .error ("no market data found for unique key " ++ uniqueKey)
  | some m =>
      if m.uniqueKey == "" then
        .error ("no market data found for unique key " ++ uniqueKey)
      else
        .ok { vaultID := originalVaultID
              morphoMarketKey := uniqueKey
              borrowRate := m.borrowApy * 100
              supplyRate := m.supplyApy * 100 }

/-- Function `Client.GetMarketDataByVaultID` (client.go lines 245-262) against a
fixed listing: a non-empty stored market key short-circuits resolution;
otherwise the key is resolved by `findUniqueKeyByVaultID` and then
fetched. -/
def GetMarketDataByVaultID (items : List MarketItem)
    (vaultID morphoMarketKey marketPair : String) : Except String MarketData :=
  if morphoMarketKey != "" then
    fetchMarketByUniqueKey items morphoMarketKey vaultID
  else
    match findUniqueKeyByVaultID items vaultID marketPair with
    | .error e =>
        .error ("failed to find unique key for vault " ++ vaultID ++ ": " ++ e)
    | .ok uniqueKey => fetchMarketByUniqueKey items uniqueKey vaultID

/-- A successful fetch carries the requested key and that key is
non-empty. -/
theorem fetchMarketByUniqueKey_ok (items : List MarketItem)
    (uniqueKey originalVaultID : String) (d : MarketData)
    (h : fetchMarketByUniqueKey items uniqueKey originalVaultID = .ok d) :
    d.morphoMarketKey = uniqueKey ∧ (uniqueKey == "") = false := by
  unfold fetchMarketByUniqueKey at h
  split at h
  · cases h
  · rename_i m hm
    split at h
    · cases h
    · rename_i hne
      cases h
      refine ⟨rfl, ?_⟩
      have hkey := List.find?_some hm
      simp only [beq_iff_eq] at hkey
      subst hkey
      simpa using hne

/-- C7.  Resolution against a fixed listing is deterministic — two calls
with the same `(vault_id, market_pair_hint)` are literally the same pure
computation — and idempotent through the cache: when a call with no
stored key succeeds with data `d`, the follow-up call that passes the
persisted key `d.morphoMarketKey` (the step-1 short-circuit of future
cycles) returns exactly the same data. -/
theorem resolution_idempotent (items : List MarketItem)
    (vaultID marketPair : String) :
    (findUniqueKeyByVaultID items vaultID marketPair
        = findUniqueKeyByVaultID items vaultID marketPair) ∧
      ∀ d, GetMarketDataByVaultID items vaultID "" marketPair = .ok d →
        GetMarketDataByVaultID items vaultID d.morphoMarketKey marketPair = .ok d := by
  refine ⟨rfl, ?_⟩
  intro d hd
  have hd' : (match findUniqueKeyByVaultID items vaultID marketPair with
      | .error e =>
          (.error ("failed to find unique key for vault " ++ vaultID ++ ": " ++ e)
            : Except String MarketData)
      | .ok uniqueKey => fetchMarketByUniqueKey items uniqueKey vaultID)
        = .ok d := hd
  split at hd'
  · cases hd'
  · rename_i uniqueKey _
    obtain ⟨hkey, hne⟩ := fetchMarketByUniqueKey_ok items uniqueKey vaultID d hd'
    have hcond : (d.morphoMarketKey != "") = true := by
      rw [hkey]
      simp [bne, hne]
    unfold GetMarketDataByVaultID
    simp only [hcond, if_true]
    rw [hkey]
    exact hd'

/-- Drops the error of an `Except`, keeping a success value. -/
def exceptToOption : Except ε α → Option α
  | .ok a => some a
  | .error _ => none

/-- The loop of `Client.GetMultipleMarkets` (client.go lines 210-231).
`fetch` abstracts `GetMarketDataByVaultID` with its network calls and is
applied to each vault's `(vaultID, morphoMarketKey, marketPair)`.  The
loop collects, in listing order, the successful results, the per-vault
error strings, and the vault configurations after the discovered-key
write-back of lines 222-227. -/
def getMultipleMarketsAux
    (fetch : String → String → String → Except String MarketData) :
    List VaultConfig → List MarketData × List String × List VaultConfig
  | [] => ([], [], [])
  | v :: rest =>
      let out := getMultipleMarketsAux fetch rest
      match fetch v.vaultID v.morphoMarketKey v.marketPair with
      | .error e =>
          (out.1, ("vault " ++ v.vaultID ++ ": " ++ e) :: out.2.1, v :: out.2.2)
      | .ok d =>
          let v' := if v.morphoMarketKey == "" && d.morphoMarketKey != "" then
              { v with morphoMarketKey := d.morphoMarketKey }
            else v
          (d :: out.1, out.2.1, v' :: out.2.2)

/-- Function `Client.GetMultipleMarkets` (client.go lines 210-243): an error is
returned only when there are no successful results and at least one
error; otherwise the successful results are returned. -/
def GetMultipleMarkets
    (fetch : String → String → String → Except String MarketData)
    (vaults : List VaultConfig) : Except String (List MarketData) :=
  let out := getMultipleMarketsAux fetch vaults
  if out.1.isEmpty && !out.2.1.isEmpty then
    .error ("all vault requests failed: " ++ String.intercalate "; " out.2.1)
  else
    .ok out.1

/-- The loop's successes are empty exactly when every vault's fetch
fails. -/
theorem getMultipleMarkets_results_nil
    (fetch : String → String → String → Except String MarketData)
    (vaults : List VaultConfig) :
    (getMultipleMarketsAux fetch vaults).1 = [] ↔
      ∀ v ∈ vaults, ∃ e, fetch v.vaultID v.morphoMarketKey v.marketPair = .error e := by
  induction vaults with
  | nil => simp [getMultipleMarketsAux]
  | cons v rest ih =>
      cases hf : fetch v.vaultID v.morphoMarketKey v.marketPair with
      | error e => simp [getMultipleMarketsAux, hf, ih]
      | ok d => simp [getMultipleMarketsAux, hf]

/-- The loop's error list is empty exactly when no vault's fetch fails. -/
theorem getMultipleMarkets_errors_nil
    (fetch : String → String → String → Except String MarketData)
    (vaults : List VaultConfig) :
    (getMultipleMarketsAux fetch vaults).2.1 = [] ↔
      ∀ v ∈ vaults, ¬∃ e, fetch v.vaultID v.morphoMarketKey v.marketPair = .error e := by
  induction vaults with
  | nil => simp [getMultipleMarketsAux]
  | cons v rest ih =>
      cases hf : fetch v.vaultID v.morphoMarketKey v.marketPair with
      | error e => simp [getMultipleMarketsAux, hf]
      | ok d => simp [getMultipleMarketsAux, hf, ih]

/-- C5.  One cycle's bulk fetch attempts every vault: the returned
successes are exactly the in-order successful fetches over the whole
vault list (a failure for one vault never stops the loop, and vaults with
cached keys are attempted like any other), and the call as a whole
returns an error exactly when the vault list is non-empty and every
vault's fetch fails. -/
theorem multiple_markets_isolate_failures
    (fetch : String → String → String → Except String MarketData)
    (vaults : List VaultConfig) :
    (getMultipleMarketsAux fetch vaults).1
        = vaults.filterMap
            (fun v => exceptToOption (fetch v.vaultID v.morphoMarketKey v.marketPair)) ∧
      ((∃ e, GetMultipleMarkets fetch vaults = .error e) ↔
        vaults ≠ [] ∧
          ∀ v ∈ vaults, ∃ e, fetch v.vaultID v.morphoMarketKey v.marketPair = .error e) := by
  constructor
  · induction vaults with
    | nil => rfl
    | cons v rest ih =>
        cases hf : fetch v.vaultID v.morphoMarketKey v.marketPair with
        | error e => simp [getMultipleMarketsAux, hf, exceptToOption, ih]
        | ok d => simp [getMultipleMarketsAux, hf, exceptToOption, ih]
  · constructor
    · rintro ⟨e, he⟩
      unfold GetMultipleMarkets at he
      by_cases hc : ((getMultipleMarketsAux fetch vaults).1.isEmpty
          && !(getMultipleMarketsAux fetch vaults).2.1.isEmpty) = true
      · simp only [Bool.and_eq_true, Bool.not_eq_true', List.isEmpty_iff,
          List.isEmpty_eq_false] at hc
        obtain ⟨hR, hE⟩ := hc
        refine ⟨?_, (getMultipleMarkets_results_nil fetch vaults).1 hR⟩
        rintro rfl
        exact hE rfl
      · rw [if_neg hc] at he
        cases he
    · rintro ⟨hne, hall⟩
      have hR : (getMultipleMarketsAux fetch vaults).1 = [] :=
        (getMultipleMarkets_results_nil fetch vaults).2 hall
      have hE : (getMultipleMarketsAux fetch vaults).2.1 ≠ [] := by
        intro hnil
        cases vaults with
        | nil => exact hne rfl
        | cons v rest =>
            have := (getMultipleMarkets_errors_nil fetch (v :: rest)).1 hnil v
              (List.mem_cons_self v rest)
            exact this (hall v (List.mem_cons_self v rest))
      refine ⟨"all vault requests failed: "
          ++ String.intercalate "; " (getMultipleMarketsAux fetch vaults).2.1, ?_⟩
      unfold GetMultipleMarkets
      rw [if_pos (by simp [hR, hE])]

/-- A fetch oracle that fails for every vault. -/
def fetchAlwaysFails : String → String → String → Except String MarketData :=
  fun vaultID _ _ => .error ("boom " ++ vaultID)

/-- Witness for `multiple_markets_isolate_failures`: with a one-vault list
whose only fetch fails, the bulk call returns an error. -/
theorem multiple_markets_isolate_failures_witness :
    ∃ e, GetMultipleMarkets fetchAlwaysFails [vcPoints] = .error e :=
  (multiple_markets_isolate_failures fetchAlwaysFails [vcPoints]).2.mpr
    ⟨by simp, by
      intro v hv
      exact ⟨"boom " ++ v.vaultID, rfl⟩⟩

/-- A one-entry listing resolvable by the exact-id strategy. -/
def itemsW : List MarketItem :=
  [{ id := "1"
     uniqueKey := "key1"
     loanAsset := { symbol := "USDC", address := "0x1" }
     collateralAsset := { symbol := "WBTC", address := "0x2" }
     borrowApy := 0
     supplyApy := 0 }]

/-- The market data the resolution of vault `"1"` against `itemsW`
produces. -/
def dW : MarketData :=
  { vaultID := "1"
    morphoMarketKey := "key1"
    borrowRate := 0
    supplyRate := 0 }

/-- Witness for `resolution_idempotent`: against `itemsW`, vault `"1"`
resolves to `dW`, and re-resolving with the cached key `"key1"` returns
`dW` again. -/
theorem resolution_idempotent_witness :
    GetMarketDataByVaultID itemsW "1" dW.morphoMarketKey "" = .ok dW :=
  (resolution_idempotent itemsW "1" "").2 dW (by
    simp [GetMarketDataByVaultID, findUniqueKeyByVaultID, findInFallback,
      fetchMarketByUniqueKey, itemsW, dW, List.find?])

/-- Go map write `m[k] = v` on an association list: replace the binding
of an existing key, otherwise add one. -/
def assocSet {α : Type} : List (String × α) → String → α → List (String × α)
  | [], k, v => [(k, v)]
  | p :: rest, k, v => if p.1 == k then (k, v) :: rest else p :: assocSet rest k v

/-- Go map read `m[k]` on an association list. -/
def assocGet? {α : Type} (m : List (String × α)) (k : String) : Option α :=
  (m.find? (fun p => p.1 == k)).map (·.2)

/-- Reading a key just written returns the written value. -/
theorem assocGet?_set_self {α : Type} (m : List (String × α)) (k : String)
    (v : α) : assocGet? (assocSet m k v) k = some v := by
  induction m with
  | nil => simp [assocSet, assocGet?, List.find?]
  | cons p rest ih =>
      by_cases h : p.1 == k
      · simp [assocSet, assocGet?, List.find?, h]
      · simpa [assocSet, assocGet?, List.find?, h] using ih

/-- Writing one key leaves reads of every other key unchanged. -/
theorem assocGet?_set_other {α : Type} (m : List (String × α)) (k k' : String)
    (v : α) (hne : k' ≠ k) : assocGet? (assocSet m k v) k' = assocGet? m k' := by
  induction m with
  | nil =>
      simp only [assocSet, assocGet?, List.find?]
      rw [show (k == k') = false from beq_eq_false_iff_ne.2 (fun h => hne h.symm)]
  | cons p rest ih =>
      by_cases h : p.1 == k
      · simp only [assocSet, h, if_true, assocGet?, List.find?]
        rw [show (k == k') = false from beq_eq_false_iff_ne.2 (fun h => hne h.symm)]
        have hp := beq_iff_eq.1 h
        rw [show (p.1 == k') = false from beq_eq_false_iff_ne.2 (by rw [hp]; exact fun h => hne h.symm)]
      · by_cases h2 : p.1 == k'
        · simp [assocSet, h, assocGet?, List.find?, h2]
        · simpa [assocSet, h, assocGet?, List.find?, h2] using ih

/-- Function `Monitor.sendDiscordAlert` (monitor.go lines 290-318).  `post` models
`httpClient.Post` of the alert's payload to the configured webhook URL,
yielding a transport error or an HTTP status code.  An empty configured
webhook URL logs a warning and returns success (`nil`) without posting;
a transport error or a status outside `[200, 300)` is an error. -/
def sendDiscordAlert (webhookURL : String)
    (post : RateChangeAlert → Except String Nat) (alert : RateChangeAlert) :
    Except String Unit :=
  if webhookURL == "" then .ok ()
  else
    match post alert with
    | .error e => .error ("failed to send webhook: " ++ e)
    | .ok status =>
        if status < 200 || 300 ≤ status then .error "webhook returned status"
        else .ok ()

/-- Last observed rates per vault id, the storage's `lastRates` map. -/
abbrev RateMap := List (String × ℚ)

/-- Processing of one `(vault, borrowRate)` pair inside the loop of
`Monitor.checkRates` (monitor.go lines 95-212): look up the stored rate,
evaluate, send the alert when the threshold check fired (the send's error
is only logged, monitor.go lines 203-205), then store the observed rate
whatever the send did. -/
def processVaultRate (webhookURL : String)
    (post : RateChangeAlert → Except String Nat) (rates : RateMap)
    (vc : VaultConfig) (borrowRate : ℚ) :
    RateMap × Option (Except String Unit) :=
  let r := checkRatesStep vc (assocGet? rates vc.vaultID) borrowRate
  let sendResult := r.alert.map (sendDiscordAlert webhookURL post)
  (assocSet rates vc.vaultID borrowRate, sendResult)

/-- The whole per-vault loop of `Monitor.checkRates`: every fetched
`(vault, rate)` pair is processed in order; the second component records
each vault's dispatch outcome (`none` when no alert fired). -/
def processCycle (webhookURL : String)
    (post : RateChangeAlert → Except String Nat) :
    List (VaultConfig × ℚ) → RateMap →
      RateMap × List (Option (Except String Unit))
  | [], rates => (rates, [])
  | (vc, b) :: rest, rates =>
      let out := processVaultRate webhookURL post rates vc b
      let outRest := processCycle webhookURL post rest out.1
      (outRest.1, out.2 :: outRest.2)

/-- C6.  Dispatching with an empty webhook URL is a no-op returning
success for every alert and every transport behaviour, and the cycle's
stored rates are those of processing every pair in order, whatever the
webhook URL and however delivery behaves — a delivery failure for one
vault never blocks the remaining vaults, whose outcomes are all
recorded. -/
theorem dispatch_failure_isolated
    (post : RateChangeAlert → Except String Nat) (a : RateChangeAlert)
    (webhookURL : String) (pairs : List (VaultConfig × ℚ)) (rates : RateMap) :
    sendDiscordAlert "" post a = .ok () ∧
      (processCycle webhookURL post pairs rates).1
          = pairs.foldl (fun rs p => assocSet rs p.1.vaultID p.2) rates ∧
      (processCycle webhookURL post pairs rates).2.length = pairs.length := by
  refine ⟨rfl, ?_⟩
  induction pairs generalizing rates with
  | nil => exact ⟨rfl, rfl⟩
  | cons p rest ih =>
      obtain ⟨vc, b⟩ := p
      simpa [processCycle, processVaultRate] using ih (assocSet rates vc.vaultID b)

/-- Capacity of the manual-check trigger channel, from
`make(chan bool, 1)` (bot.go line 35). -/
def checkTriggerCapacity : Nat := 1

/-- Function `Bot.handleCheck` (bot.go lines 304-312): a non-blocking send on the
buffered trigger channel via `select`/`default`.  The channel is modelled
as its queue of pending signals; with buffer space free the signal is
enqueued and the requester is answered "triggered", otherwise the signal
is dropped and the requester is answered "already in progress".  Either
way the requester is answered immediately: the operation is a total
function of the queue. -/
def handleCheck (pending : List Bool) : List Bool × Bool :=
  if pending.length < checkTriggerCapacity then (pending ++ [true], true)
  else (pending, false)

/-- C8.  A manual trigger with no pending signal is accepted exactly once
(the queue goes from empty to exactly one signal); a manual trigger while
one is already pending is dropped with the queue unchanged; and the queue
never exceeds depth one. -/
theorem manual_trigger_depth_one :
    handleCheck [] = ([true], true) ∧
      (∀ pending : List Bool, pending ≠ [] → handleCheck pending = (pending, false)) ∧
      ∀ pending : List Bool, pending.length ≤ checkTriggerCapacity →
        (handleCheck pending).1.length ≤ checkTriggerCapacity := by
  refine ⟨rfl, ?_, ?_⟩
  · intro pending hne
    cases pending with
    | nil => exact absurd rfl hne
    | cons x rest => rfl
  · intro pending hlen
    unfold handleCheck
    by_cases h : pending.length < checkTriggerCapacity
    · rw [if_pos h]
      simpa [checkTriggerCapacity] using h
    · rw [if_neg h]
      exact hlen

/-- Witness for `manual_trigger_depth_one`: a trigger arriving while one
signal is already pending is dropped without touching the queue. -/
theorem manual_trigger_depth_one_witness :
    handleCheck [true] = ([true], false) :=
  manual_trigger_depth_one.2.1 [true] (by simp)

/-- Structure `storage.InMemoryStorage` (storage.go lines 20-98): vault and
last-rate maps guarded by a lock; the lock disappears in this sequential
model. -/
structure InMemoryStorage where
  vaults : List (String × VaultConfig)
  lastRates : RateMap
deriving Repr, DecidableEq

/-- Structure `storage.FileStorage` (storage.go lines 112-300): the same in-memory
maps plus their on-disk JSON mirrors, written by `saveVaultsToDisk` /
`saveRatesToDisk`; disk writes are modelled as always succeeding. -/
structure FileStorage where
  vaults : List (String × VaultConfig)
  lastRates : RateMap
  diskVaults : List (String × VaultConfig)
  diskRates : RateMap
deriving Repr, DecidableEq

/-- Function `InMemoryStorage.GetVault` (storage.go lines 51-60): the Go pair
`(vault *VaultConfig, err error)` — absence yields `(nil, nil)`. -/
def InMemoryStorage.GetVault (s : InMemoryStorage) (vaultID : String) :
    Option VaultConfig × Option String :=
  (assocGet? s.vaults vaultID, none)

/-- Function `FileStorage.GetVault` (storage.go lines 169-178): identical contract,
reading the in-memory map. -/
def FileStorage.GetVault (fs : FileStorage) (vaultID : String) :
    Option VaultConfig × Option String :=
  (assocGet? fs.vaults vaultID, none)

/-- Function `InMemoryStorage.AddVault` (storage.go lines 33-40): unconditionally
overwrites `CreatedAt` with the current time, then stores the vault under
its id. -/
def InMemoryStorage.AddVault (s : InMemoryStorage) (now : Nat)
    (v : VaultConfig) : InMemoryStorage :=
  { s with vaults := assocSet s.vaults v.vaultID { v with createdAt := now } }

/-- Function `FileStorage.AddVault` (storage.go lines 147-154): same write, then
`saveVaultsToDisk`. -/
def FileStorage.AddVault (fs : FileStorage) (now : Nat)
    (v : VaultConfig) : FileStorage :=
  let vaults := assocSet fs.vaults v.vaultID { v with createdAt := now }
  { fs with vaults := vaults, diskVaults := vaults }

/-- Function `handleThreshold` (commands.go lines 475-508, likewise bot.go lines
314-354): validate the new threshold, look the vault up, set its
`ThresholdPercent` and re-store it through `AddVault`. -/
def handleThreshold (fs : FileStorage) (now : Nat) (vaultID : String)
    (newThreshold : ℚ) : FileStorage × Option String :=
  if newThreshold < 1/10 ∨ newThreshold > 100 then
    (fs, some "threshold must be between 0.1 and 100.0")
  else
    match (fs.GetVault vaultID).1 with
    | none => (fs, some ("vault " ++ vaultID ++ " not found"))
    | some vault =>
        (fs.AddVault now { vault with thresholdPercent := newThreshold }, none)

/-- C9.  For a vault id not present in either store, `GetVault` returns a
nil vault together with a nil error: absence is signalled by the nil
result, never by the error value. -/
theorem getVault_absent_nil_nil (s : InMemoryStorage) (fs : FileStorage)
    (vaultID : String)
    (h1 : assocGet? s.vaults vaultID = none)
    (h2 : assocGet? fs.vaults vaultID = none) :
    s.GetVault vaultID = (none, none) ∧ fs.GetVault vaultID = (none, none) := by
  constructor
  · simp [InMemoryStorage.GetVault, h1]
  · simp [FileStorage.GetVault, h2]

/-- Witness for `getVault_absent_nil_nil`: empty stores. -/
theorem getVault_absent_nil_nil_witness :
    InMemoryStorage.GetVault { vaults := [], lastRates := [] } "1234"
        = (none, none) ∧
      FileStorage.GetVault
          { vaults := [], lastRates := [], diskVaults := [], diskRates := [] }
          "1234" = (none, none) :=
  getVault_absent_nil_nil
    { vaults := [], lastRates := [] }
    { vaults := [], lastRates := [], diskVaults := [], diskRates := [] }
    "1234" rfl rfl

/-- C10.  Both `AddVault` implementations overwrite the stored vault's
`CreatedAt` with the current time and leave every other vault id's entry
unchanged; consequently the threshold-update command, which re-stores the
looked-up vault through `AddVault`, also resets its `created_at`. -/
theorem addVault_overwrites_createdAt (s : InMemoryStorage)
    (fs : FileStorage) (now : Nat) (v : VaultConfig) :
    assocGet? ((s.AddVault now v).vaults) v.vaultID
        = some { v with createdAt := now } ∧
      (∀ id, id ≠ v.vaultID →
        assocGet? ((s.AddVault now v).vaults) id = assocGet? s.vaults id) ∧
      assocGet? ((fs.AddVault now v).vaults) v.vaultID
        = some { v with createdAt := now } ∧
      (∀ id, id ≠ v.vaultID →
        assocGet? ((fs.AddVault now v).vaults) id = assocGet? fs.vaults id) ∧
      ∀ vaultID t vault,
        assocGet? fs.vaults vaultID = some vault → vault.vaultID = vaultID →
        ¬(t < 1/10 ∨ t > 100) →
        assocGet? ((handleThreshold fs now vaultID t).1.vaults) vaultID
          = some { vault with thresholdPercent := t, createdAt := now } := by
  refine ⟨assocGet?_set_self _ _ _,
    fun id hid => assocGet?_set_other _ _ _ _ hid,
    assocGet?_set_self _ _ _,
    fun id hid => assocGet?_set_other _ _ _ _ hid, ?_⟩
  intro vaultID t vault hget hvid ht
  unfold handleThreshold
  rw [if_neg ht]
  simp only [FileStorage.GetVault, hget]
  show assocGet?
      ((fs.AddVault now { vault with thresholdPercent := t }).vaults) vaultID
    = some { vault with thresholdPercent := t, createdAt := now }
  unfold FileStorage.AddVault
  have : ({ vault with thresholdPercent := t } : VaultConfig).vaultID = vaultID := hvid
  rw [← this]
  exact assocGet?_set_self _ _ _

/-- A file store holding `vcPoints` under its id, with `created_at = 0`. -/
def fsW : FileStorage :=
  { vaults := [("v1", vcPoints)]
    lastRates := []
    diskVaults := [("v1", vcPoints)]
    diskRates := [] }

/-- Witness for `addVault_overwrites_createdAt`: updating the threshold
of the enrolled vault to 1.0 at time 42 re-stores it with
`created_at = 42`, not its original creation time 0. -/
theorem addVault_overwrites_createdAt_witness :
    assocGet? ((handleThreshold fsW 42 "v1" 1).1.vaults) "v1"
      = some { vcPoints with thresholdPercent := 1, createdAt := 42 } :=
  (addVault_overwrites_createdAt { vaults := [], lastRates := [] } fsW 42
      vcPoints).2.2.2.2 "v1" 1 vcPoints rfl rfl (by norm_num)
